import Mathlib

/-!
Verification development for the ParallelFDTD application layer
(`src/App.cpp`).  The C++ code is shallowly embedded: machine-integer
arithmetic is modelled over `Nat`/`Int` with explicit `% 4294967296`
(2^32) where the C++ `unsigned int` wraps, floating-point quantities that
the claims speak about exactly (step counters, partition counts, memory
sums in MB) are kept as integers exactly as the code stores them in `int`
/ `unsigned int`, and timing / pressure values are modelled over `ℚ`.
-/

/-! ## Mesh footprint estimation (`App::initializeMesh`, lines 147-174)

`estimated_nodes` is an `unsigned int`; `estimated_nodes*8` and
`estimated_nodes*18` are computed in 32-bit unsigned arithmetic, hence
the `% 4294967296` (= 2^32) in the model.  The quotient is then stored
into a C++ `int`; its value is at most 4294 so the conversion is exact. -/

/-- `int mesh_size_in_MB = estimated_nodes*8/1000000;` with the 32-bit
wraparound of the `unsigned int` multiplication made explicit. -/
def mesh_size_in_MB (estimated_nodes : Nat) : Nat :=
  estimated_nodes * 8 % 4294967296 / 1000000

/-- `int mesh_size_in_MB_double = estimated_nodes*18/1000000;` with the
32-bit wraparound of the `unsigned int` multiplication made explicit. -/
def mesh_size_in_MB_double (estimated_nodes : Nat) : Nat :=
  estimated_nodes * 18 % 4294967296 / 1000000

/-- Reference (non-wrapping) single-precision footprint in MB:
8 bytes per node, no 32-bit truncation.  Used only to compare the code's
computed footprint against the mathematically true one. -/
def trueSingleMB (estimated_nodes : Nat) : Nat :=
  estimated_nodes * 8 / 1000000

/-- Reference (non-wrapping) double-precision footprint in MB:
18 bytes per node, no 32-bit truncation. -/
def trueDoubleMB (estimated_nodes : Nat) : Nat :=
  estimated_nodes * 18 / 1000000

/-! ## Partition decision (`App::initializeMesh`, lines 216-233) -/

/-- `unsigned int element_limit = (unsigned int)90e6; if (isDouble)
element_limit /= 2;` -/
def element_limit (isDouble : Bool) : Nat :=
  if isDouble then 90000000 / 2 else 90000000

/-- The partition decision of `App::initializeMesh` (lines 222-233):
the value handed to `m_mesh.makePartition`.  `force` is the `int` field
`force_partition_to_`, `ndev` the `int` field `number_of_devices_`,
`requested` the `unsigned int` argument `number_of_partitions`. -/
def decidePartition (num_elements : Nat) (isDouble : Bool)
    (force : Int) (ndev : Int) (requested : Nat) : Int :=
  if force ≠ -1 ∧ force ≤ ndev then force
  else if num_elements < element_limit isDouble then 1
  else (requested : Int)

/-! ## `App::initializeMesh` as a whole -/

/-- State of the `App` object as far as `initializeMesh` reads it.
`estimated_nodes` abstracts the bounding-box/dx computation (floating
point, external geometry); `num_elements` abstracts
`m_mesh.getNumberOfElements()` reported by the external mesh layer after
setup. -/
structure AppState where
  estimated_nodes : Nat
  isDouble : Bool
  device_mem_sizes : List Int
  force_partition_to : Int
  num_elements : Nat
deriving Repr, DecidableEq

/-- Outcome of `App::initializeMesh`: either the resource-exhaustion
path (`close(); throw(-1);`, taken before `voxelizeGeometry` /
`setupMesh` touch any device), or the normal path, which voxelizes,
sets up the mesh on the devices and calls `makePartition` with the
decided partition argument. -/
structure MeshInitResult where
  memError : Bool
  deviceAllocated : Bool
  partitionArg : Option Int
deriving Repr, DecidableEq

/-- Shallow embedding of `App::initializeMesh` (lines 147-234).
The memory checks replicate the code: the single-precision footprint is
checked against the summed device memory unconditionally, the
double-precision footprint additionally when `isDouble`. -/
def initializeMesh (s : AppState) (number_of_partitions : Nat) : MeshInitResult :=
  let total_mem : Int := s.device_mem_sizes.sum
  if total_mem < (mesh_size_in_MB s.estimated_nodes : Int) then
    ⟨true, false, none⟩
  else if s.isDouble ∧ total_mem < (mesh_size_in_MB_double s.estimated_nodes : Int) then
    ⟨true, false, none⟩
  else
    ⟨false, true,
      some (decidePartition s.num_elements s.isDouble s.force_partition_to
              (s.device_mem_sizes.length : Int) number_of_partitions)⟩

/-- The footprint of the configured precision, as the code computes it. -/
def configuredFootprintMB (s : AppState) : Nat :=
  if s.isDouble then mesh_size_in_MB_double s.estimated_nodes
  else mesh_size_in_MB s.estimated_nodes

/-- C1: if the estimated memory footprint of the configured precision
(as computed by the code) exceeds the summed free memory of all
enumerated devices, `initializeMesh` fails with the resource-exhaustion
path before any device allocation happens, and no partition (in
particular no smaller mesh) is produced. -/
theorem C1_memcheck_rejects_before_allocation (s : AppState) (p : Nat)
    (h : s.device_mem_sizes.sum < (configuredFootprintMB s : Int)) :
    initializeMesh s p = ⟨true, false, none⟩ := by
  unfold initializeMesh
  unfold configuredFootprintMB at h
  cases hd : s.isDouble with
  | true =>
    simp only [hd, if_true] at h
    by_cases h1 : s.device_mem_sizes.sum < (mesh_size_in_MB s.estimated_nodes : Int)
    · simp [h1]
    · simp [h1, hd, h]
  | false =>
    simp [hd] at h
    simp [h]

/-- Witness for C1: one device with 50 MB free, a 10-million-node
single-precision mesh (80 MB): rejected with no allocation. -/
theorem C1_memcheck_rejects_before_allocation_witness :
    (⟨10000000, false, [50], -1, 0⟩ : AppState).device_mem_sizes.sum
      < (configuredFootprintMB ⟨10000000, false, [50], -1, 0⟩ : Int) ∧
    initializeMesh ⟨10000000, false, [50], -1, 0⟩ 2 = ⟨true, false, none⟩ :=
  ⟨by decide, C1_memcheck_rejects_before_allocation ⟨10000000, false, [50], -1, 0⟩ 2 (by decide)⟩

/-- C2: a forced partition count that is valid in the spec's sense
(`1 ≤ forced ≤ deviceCount`) is always used, whatever the element count
and the caller-requested partition count are. -/
theorem C2_valid_forced_count_honored (num_elements : Nat) (isDouble : Bool)
    (force ndev : Int) (requested : Nat)
    (h1 : 1 ≤ force) (h2 : force ≤ ndev) :
    decidePartition num_elements isDouble force ndev requested = force := by
  unfold decidePartition
  have hne : force ≠ -1 := by omega
  simp [hne, h2]

/-- Witness for C2: forced count 2 with 3 devices, a tiny mesh and a
requested count of 7: the decision is 2. -/
theorem C2_valid_forced_count_honored_witness :
    (1 : Int) ≤ 2 ∧ (2 : Int) ≤ 3 ∧
    decidePartition 5 false 2 3 7 = 2 :=
  ⟨by decide, by decide, C2_valid_forced_count_honored 5 false 2 3 7 (by decide) (by decide)⟩

/-- Counterexample for C3 as stated: with forced count 0 (not valid in
the spec's sense, since `1 ≤ forced` fails), one device, 100 elements
(far below every threshold) and requested count 2, the claim predicts 1
partition, but the code accepts forced = 0 (its test is only
`force ≠ -1 ∧ force ≤ ndev`) and passes 0 to `makePartition`. -/
theorem C3_counterexample :
    ¬ (1 : Int) ≤ 0 ∧ 100 < element_limit false ∧
    decidePartition 100 false 0 1 2 = 0 ∧
    decidePartition 100 false 0 1 2 ≠ 1 := by decide

/-- C3 amended: when the forced partition count is rejected by the code
(it is −1 or exceeds the device count), the decision is 1 partition when
the element count is below the precision-dependent single-partition
threshold and the caller-requested count otherwise; the forced branch is
tested first and the threshold test precedes the multi-partition
fallback.  Stated as a full characterization of the decision. -/
theorem C3_heuristic_partition_choice (num_elements : Nat) (isDouble : Bool)
    (force ndev : Int) (requested : Nat)
    (h : force = -1 ∨ ndev < force) :
    decidePartition num_elements isDouble force ndev requested =
      (if num_elements < element_limit isDouble then 1 else (requested : Int)) := by
  unfold decidePartition
  have hrej : ¬ (force ≠ -1 ∧ force ≤ ndev) := by omega
  simp only [hrej, if_false]

/-- Witness for C3 amended: no forced count (−1), 60 million elements:
below the single-precision threshold, so 1 partition. -/
theorem C3_heuristic_partition_choice_witness :
    ((-1 : Int) = -1 ∨ (2 : Int) < -1) ∧
    decidePartition 60000000 false (-1) 2 2 =
      (if 60000000 < element_limit false then 1 else (2 : Int)) :=
  ⟨Or.inl rfl, C3_heuristic_partition_choice 60000000 false (-1) 2 2 (Or.inl rfl)⟩

/-- C9: the single-partition threshold is precision dependent —
90·10^6 elements in single precision, halved to 45·10^6 in double — and
for any element count in [45·10^6, 90·10^6) with the forced count
rejected, a single-precision mesh gets 1 partition while a
double-precision mesh gets the caller-requested count. -/
theorem C9_threshold_depends_on_precision (num_elements : Nat)
    (force ndev : Int) (requested : Nat)
    (h : force = -1 ∨ ndev < force)
    (hlo : 45000000 ≤ num_elements) (hhi : num_elements < 90000000) :
    element_limit false = 90000000 ∧ element_limit true = 45000000 ∧
    decidePartition num_elements false force ndev requested = 1 ∧
    decidePartition num_elements true force ndev requested = (requested : Int) := by
  have hrej : ¬ (force ≠ -1 ∧ force ≤ ndev) := by omega
  refine ⟨rfl, rfl, ?_, ?_⟩
  · unfold decidePartition
    simp only [hrej, if_false, element_limit, Bool.false_eq_true, if_false]
    omega
  · unfold decidePartition
    have : ¬ num_elements < element_limit true := by
      unfold element_limit; simp; omega
    simp [hrej, this]

/-- Witness for C9: 60 million elements, no forced count: single
precision gives 1 partition, double precision gives the requested 2. -/
theorem C9_threshold_depends_on_precision_witness :
    ((-1 : Int) = -1 ∨ (4 : Int) < -1) ∧ 45000000 ≤ 60000000 ∧ 60000000 < 90000000 ∧
    (element_limit false = 90000000 ∧ element_limit true = 45000000 ∧
     decidePartition 60000000 false (-1) 4 2 = 1 ∧
     decidePartition 60000000 true (-1) 4 2 = (2 : Int)) :=
  ⟨Or.inl rfl, by decide, by decide,
   C9_threshold_depends_on_precision 60000000 (-1) 4 2 (Or.inl rfl) (by decide) (by decide)⟩

/-- C10: the code's forced-count validity test is only
`force ≠ -1 ∧ force ≤ ndev`: every such value — including 0 and negative
values other than −1 — is passed straight to `makePartition`; the lower
bound `1 ≤ force` is never checked. -/
theorem C10_forced_lower_bound_unchecked (num_elements : Nat) (isDouble : Bool)
    (force ndev : Int) (requested : Nat)
    (h1 : force ≠ -1) (h2 : force ≤ ndev) :
    decidePartition num_elements isDouble force ndev requested = force := by
  unfold decidePartition
  simp [h1, h2]

/-- Witness for C10: the invalid forced value −2 (≠ −1, ≤ deviceCount)
is accepted and handed to the partition operation. -/
theorem C10_forced_lower_bound_unchecked_witness :
    (-2 : Int) ≠ -1 ∧ (-2 : Int) ≤ 3 ∧
    decidePartition 100 false (-2) 3 2 = -2 :=
  ⟨by decide, by decide, C10_forced_lower_bound_unchecked 100 false (-2) 3 2 (by decide) (by decide)⟩

/-! ## Execution state (`App::invertTime`, `App::executeStep`, lines 403-436)

`current_step_` and `step_direction_` are C++ `int`s, modelled as `Int`.
The measured wall-clock time of a step (`(float)end_t/CLOCKS_PER_SEC`)
is nondeterministic, so `executeStep` takes it as a parameter `t : ℚ`;
the float arithmetic of the smoothing update is modelled over `ℚ`. -/

structure ExecState where
  current_step : Int
  step_direction : Int
  time_per_step : ℚ
deriving Repr, DecidableEq

/-- `void App::invertTime() { this->step_direction_ *= -1; }` -/
def invertTime (s : ExecState) : ExecState :=
  { s with step_direction := s.step_direction * -1 }

/-- `App::executeStep` state update: the kernel launch receives
`current_step_` and `step_direction_` (modelled separately for the
capture run), then `current_step_ += step_direction_` and
`time_per_step_ = (time_per_step_ + t)/2`. -/
def executeStep (s : ExecState) (t : ℚ) : ExecState :=
  { current_step := s.current_step + s.step_direction
    step_direction := s.step_direction
    time_per_step := (s.time_per_step + t) / 2 }

/-- Executing one step per entry of a list of measured step times. -/
def runSteps (s : ExecState) (ts : List ℚ) : ExecState :=
  ts.foldl executeStep s

theorem runSteps_step_direction (ts : List ℚ) (s : ExecState) :
    (runSteps s ts).step_direction = s.step_direction := by
  induction ts generalizing s with
  | nil => rfl
  | cons t ts ih => simpa [runSteps, executeStep] using ih _

theorem runSteps_current_step (ts : List ℚ) (s : ExecState) :
    (runSteps s ts).current_step =
      s.current_step + ts.length * s.step_direction := by
  induction ts generalizing s with
  | nil => simp [runSteps]
  | cons t ts ih =>
    have := ih (executeStep s t)
    simp only [runSteps, List.foldl_cons] at this ⊢
    rw [this]
    simp [executeStep]
    ring

/-- C5: inverting the step direction twice restores the whole execution
state (in particular the step counter is untouched), and a
reverse-then-forward replay of equally many steps returns to the
original step index with the original direction. -/
theorem C5_invertTime_involution (s : ExecState) :
    invertTime (invertTime s) = s ∧
    ∀ ts ts' : List ℚ, ts'.length = ts.length →
      (runSteps (invertTime (runSteps (invertTime s) ts)) ts').current_step
          = s.current_step ∧
      (runSteps (invertTime (runSteps (invertTime s) ts)) ts').step_direction
          = s.step_direction := by
  constructor
  · cases s with
    | mk c d t => simp [invertTime]
  · intro ts ts' hlen
    constructor
    · rw [runSteps_current_step]
      simp only [invertTime, runSteps_step_direction, runSteps_current_step, hlen]
      ring
    · simp only [runSteps_step_direction, invertTime]
      ring

/-- Witness for C5: the spec scenario — at step 10 with direction +1,
invert, run 5 steps, invert, run 5 steps: back at step 10, direction +1. -/
theorem C5_invertTime_involution_witness :
    invertTime (invertTime ⟨10, 1, 0⟩) = ⟨10, 1, 0⟩ ∧
    ((List.replicate 5 (0 : ℚ)).length = (List.replicate 5 (1 : ℚ)).length ∧
     (runSteps (invertTime (runSteps (invertTime ⟨10, 1, 0⟩) (List.replicate 5 (1 : ℚ))))
        (List.replicate 5 (0 : ℚ))).current_step = (10 : Int) ∧
     (runSteps (invertTime (runSteps (invertTime ⟨10, 1, 0⟩) (List.replicate 5 (1 : ℚ))))
        (List.replicate 5 (0 : ℚ))).step_direction = (1 : Int)) :=
  ⟨(C5_invertTime_involution ⟨10, 1, 0⟩).1,
   rfl,
   (C5_invertTime_involution ⟨10, 1, 0⟩).2
     (List.replicate 5 (1 : ℚ)) (List.replicate 5 (0 : ℚ)) rfl⟩

/-- C6: every step execution updates the smoothed timing estimate to the
arithmetic mean of the previous estimate and this step's measured time
(fixed weight 1/2), and this is not a running mean over all steps:
starting from estimate 0 and measuring times 1 then 0, the smoothed
estimate is 1/4 while the running mean of the two samples is 1/2. -/
theorem C6_timing_exponential_smoothing :
    (∀ (s : ExecState) (t : ℚ),
        (executeStep s t).time_per_step = (s.time_per_step + t) / 2 ∧
        (executeStep s t).time_per_step
          = (1 : ℚ) / 2 * s.time_per_step + (1 : ℚ) / 2 * t) ∧
    (executeStep (executeStep ⟨0, 1, 0⟩ 1) 0).time_per_step = 1 / 4 ∧
    ((1 : ℚ) + 0) / 2 = 1 / 2 ∧ (1 : ℚ) / 4 ≠ 1 / 2 := by
  refine ⟨fun s t => ⟨rfl, ?_⟩, by norm_num [executeStep], by norm_num, by norm_num⟩
  simp [executeStep]
  ring

/-- C8: the footprint estimates wrap modulo 2^32.  For every node count
`n < 2^32` with `n ≥ 536870912` (= 2^32/8) the computed single-precision
footprint is strictly below the true one; for `n ≥ 238609295`
(= ⌈2^32/18⌉) the computed double-precision footprint is strictly below
the true one; and the memory check can accept a mesh whose true
footprint exceeds the summed device memory: 600 million nodes in single
precision (true footprint 4800 MB) pass the check against a single
1000 MB device. -/
theorem C8_footprint_overflow :
    (∀ n : Nat, 536870912 ≤ n → n < 4294967296 →
        mesh_size_in_MB n < trueSingleMB n) ∧
    (∀ n : Nat, 238609295 ≤ n → n < 4294967296 →
        mesh_size_in_MB_double n < trueDoubleMB n) ∧
    ((initializeMesh ⟨600000000, false, [1000], -1, 1000⟩ 2).memError = false ∧
     (initializeMesh ⟨600000000, false, [1000], -1, 1000⟩ 2).deviceAllocated = true ∧
     (1000 : Nat) < trueSingleMB 600000000) := by
  refine ⟨?_, ?_, by decide, by decide, by decide⟩
  · intro n h1 h2
    unfold mesh_size_in_MB trueSingleMB
    omega
  · intro n h1 h2
    unfold mesh_size_in_MB_double trueDoubleMB
    omega

/-- Witness for C8: at 600 million nodes the computed single-precision
footprint (505 MB) undershoots the true one (4800 MB), and at 300
million nodes the computed double-precision footprint undershoots too. -/
theorem C8_footprint_overflow_witness :
    (536870912 ≤ 600000000 ∧ 600000000 < 4294967296 ∧
     mesh_size_in_MB 600000000 < trueSingleMB 600000000) ∧
    (238609295 ≤ 300000000 ∧ 300000000 < 4294967296 ∧
     mesh_size_in_MB_double 300000000 < trueDoubleMB 300000000) :=
  ⟨⟨by decide, by decide,
    C8_footprint_overflow.1 600000000 (by decide) (by decide)⟩,
   ⟨by decide, by decide,
    C8_footprint_overflow.2.1 300000000 (by decide) (by decide)⟩⟩

/-! ## Capture run (`App::runCapture`, lines 350-379)

The response buffer `responses_` is assigned `numSteps*numReceivers`
zeros and handed (as `&responses_[0]`) to the per-step kernel launch.
The buffer is modelled as a total function `Nat → ℚ`; only indices below
`numSteps * numReceivers` correspond to allocated entries.  The
interrupt flag is an externally-set volatile boolean polled once per
loop iteration, modelled as a function `ip` of the poll index. -/

/-- Whether the `for` loop of `runCapture` exited through the
interrupt `break` or by exhausting its step budget. -/
inductive RunStatus where
  | interrupted : RunStatus
  | completed : RunStatus
deriving Repr, DecidableEq

structure CaptureState where
  exec : ExecState
  responses : Nat → ℚ

/-- Modelled from the spec: `launchFDTD3dStep` (the compute-kernel
layer's single-step variant `runOneStep`, declared in `kernels3d.h`,
not part of src/) produces "updated receiver samples": it writes the
sample of each receiver `r < numReceivers` for the step it is given into
the response buffer, which is "indexed by `(step, receiver)`", i.e. at
index `step * numReceivers + r`; other entries are untouched.
`sample step r` stands for the field value the kernel records. -/
def launchFDTD3dStep (numReceivers : Nat) (sample : Nat → Nat → ℚ)
    (step : Int) (buf : Nat → ℚ) : Nat → ℚ :=
  fun idx =>
    if 0 ≤ step ∧ step.toNat * numReceivers ≤ idx
        ∧ idx < (step.toNat + 1) * numReceivers then
      sample step.toNat (idx - step.toNat * numReceivers)
    else buf idx

/-- One iteration body of the `runCapture` loop: `executeStep` launches
the kernel at the current step index, then advances the counter and the
timing estimate (the slice/mesh capture calls do not touch the response
buffer or the counters). -/
def captureExecuteStep (numReceivers : Nat) (sample : Nat → Nat → ℚ)
    (t : ℚ) (st : CaptureState) : CaptureState :=
  { exec := executeStep st.exec t
    responses := launchFDTD3dStep numReceivers sample st.exec.current_step st.responses }

/-- `k` consecutive loop iterations, the first one being iteration `i`. -/
def stepsFrom (numReceivers : Nat) (sample : Nat → Nat → ℚ) (times : Nat → ℚ) :
    Nat → Nat → CaptureState → CaptureState
  | 0, _, st => st
  | m + 1, i, st =>
      stepsFrom numReceivers sample times m (i + 1)
        (captureExecuteStep numReceivers sample (times i) st)

/-- The `for(i = 0; i < step; i++) { executeStep(); if(interrupt()) break; }`
loop, by the number of remaining iterations; `ip i` is the poll after
iteration `i`. -/
def runCaptureAux (numReceivers : Nat) (sample : Nat → Nat → ℚ)
    (ip : Nat → Bool) (times : Nat → ℚ) :
    Nat → Nat → CaptureState → CaptureState × RunStatus
  | 0, _, st => (st, RunStatus.completed)
  | r + 1, i, st =>
      let st' := captureExecuteStep numReceivers sample (times i) st
      if ip i then (st', RunStatus.interrupted)
      else runCaptureAux numReceivers sample ip times r (i + 1) st'

/-- `App::runCapture` (lines 350-379): zero-fill the response buffer of
size `numSteps * numReceivers`, then run the polling step loop.
`exec0` is the execution state the `App` object is in when the capture
run starts (a fresh run has `current_step_ = 0`, `step_direction_ = 1`). -/
def runCapture (exec0 : ExecState) (numSteps numReceivers : Nat)
    (sample : Nat → Nat → ℚ) (ip : Nat → Bool) (times : Nat → ℚ) :
    CaptureState × RunStatus :=
  runCaptureAux numReceivers sample ip times numSteps 0 ⟨exec0, fun _ => 0⟩

theorem runCaptureAux_interrupt (numReceivers : Nat) (sample : Nat → Nat → ℚ)
    (ip : Nat → Bool) (times : Nat → ℚ) :
    ∀ (k r i : Nat) (st : CaptureState), 0 < k → k ≤ r →
    (∀ j, j < k - 1 → ip (i + j) = false) → ip (i + (k - 1)) = true →
    runCaptureAux numReceivers sample ip times r i st =
      (stepsFrom numReceivers sample times k i st, RunStatus.interrupted) := by
  intro k
  induction k with
  | zero => intro r i st h; omega
  | succ k' ih =>
    intro r i st _ hkr hfalse htrue
    obtain ⟨r', rfl⟩ : ∃ r', r = r' + 1 := ⟨r - 1, by omega⟩
    cases k' with
    | zero =>
      simp only [Nat.add_sub_cancel, Nat.add_zero] at htrue
      simp [runCaptureAux, stepsFrom, htrue]
    | succ k'' =>
      have h0 : ip i = false := by
        have := hfalse 0 (by omega)
        simpa using this
      have hrec := ih r' (i + 1)
        (captureExecuteStep numReceivers sample (times i) st)
        (by omega) (by omega)
        (by
          intro j hj
          have h' : i + 1 + j = i + (j + 1) := by omega
          rw [h']
          exact hfalse (j + 1) (by omega))
        (by
          have h' : i + 1 + (k'' + 1 - 1) = i + (k'' + 1 + 1 - 1) := by omega
          rw [h']
          exact htrue)
      simp only [runCaptureAux, h0, Bool.false_eq_true, if_false, stepsFrom]
      exact hrec

theorem stepsFrom_exec (numReceivers : Nat) (sample : Nat → Nat → ℚ)
    (times : Nat → ℚ) :
    ∀ (k i : Nat) (st : CaptureState),
    (stepsFrom numReceivers sample times k i st).exec.current_step
        = st.exec.current_step + k * st.exec.step_direction ∧
    (stepsFrom numReceivers sample times k i st).exec.step_direction
        = st.exec.step_direction := by
  intro k
  induction k with
  | zero => intro i st; simp [stepsFrom]
  | succ k' ih =>
    intro i st
    have h := ih (i + 1) (captureExecuteStep numReceivers sample (times i) st)
    have hunf : stepsFrom numReceivers sample times (k' + 1) i st
        = stepsFrom numReceivers sample times k' (i + 1)
            (captureExecuteStep numReceivers sample (times i) st) := rfl
    rw [hunf]
    constructor
    · rw [h.1]
      simp only [captureExecuteStep, executeStep]
      push_cast
      ring
    · rw [h.2]
      rfl

/-- Response-buffer contents after `k` iterations from step counter `c`
with direction +1: the entries of steps `c, ..., c+k-1` hold the kernel
samples; everything outside `[c*numReceivers, (c+k)*numReceivers)` is
untouched. -/
theorem stepsFrom_responses (numReceivers : Nat) (sample : Nat → Nat → ℚ)
    (times : Nat → ℚ) :
    ∀ (k i : Nat) (st : CaptureState) (c : Nat),
    st.exec.current_step = (c : Int) → st.exec.step_direction = 1 →
    (∀ j r', j < k → r' < numReceivers →
      (stepsFrom numReceivers sample times k i st).responses ((c + j) * numReceivers + r')
        = sample (c + j) r') ∧
    (∀ idx : Nat, idx < c * numReceivers ∨ (c + k) * numReceivers ≤ idx →
      (stepsFrom numReceivers sample times k i st).responses idx = st.responses idx) := by
  intro k
  induction k with
  | zero =>
    intro i st c _ _
    refine ⟨fun j r' hj => absurd hj (by omega), fun idx _ => rfl⟩
  | succ k' ih =>
    intro i st c hc hd
    set st' := captureExecuteStep numReceivers sample (times i) st with hst'
    have hc' : st'.exec.current_step = ((c + 1 : Nat) : Int) := by
      simp only [hst', captureExecuteStep, executeStep, hc, hd]
      push_cast; ring
    have hd' : st'.exec.step_direction = 1 := by
      simp only [hst', captureExecuteStep, executeStep, hd]
    have hwrite : ∀ idx : Nat, st'.responses idx =
        if c * numReceivers ≤ idx ∧ idx < (c + 1) * numReceivers then
          sample c (idx - c * numReceivers)
        else st.responses idx := by
      intro idx
      simp only [hst', captureExecuteStep, launchFDTD3dStep, hc]
      have ht : ((c : Int)).toNat = c := Int.toNat_ofNat c
      rw [ht]
      by_cases hin : c * numReceivers ≤ idx ∧ idx < (c + 1) * numReceivers
      · simp [hin.1, hin.2]
      · rw [if_neg (by omega), if_neg (by omega)]
    have hih := ih (i + 1) st' (c + 1) hc' hd'
    have hunf : stepsFrom numReceivers sample times (k' + 1) i st
        = stepsFrom numReceivers sample times k' (i + 1) st' := rfl
    constructor
    · intro j r' hj hr'
      rw [hunf]
      cases j with
      | zero =>
        have hlt : (c + 0) * numReceivers + r' < (c + 1) * numReceivers := by
          simp only [Nat.add_mul, Nat.one_mul]; omega
        rw [hih.2 ((c + 0) * numReceivers + r') (Or.inl hlt)]
        rw [hwrite]
        rw [if_pos ⟨by simp only [Nat.add_mul]; omega, by
          simp only [Nat.add_mul, Nat.one_mul] at hlt ⊢; omega⟩]
        congr 1
        simp only [Nat.add_mul]; omega
      | succ j' =>
        have h1 : c + (j' + 1) = c + 1 + j' := by omega
        rw [h1]
        exact hih.1 j' r' (by omega) hr'
    · intro idx hidx
      rw [hunf]
      have hout : idx < (c + 1) * numReceivers ∨ (c + 1 + k') * numReceivers ≤ idx := by
        rcases hidx with h | h
        · left
          have : c * numReceivers ≤ (c + 1) * numReceivers :=
            Nat.mul_le_mul_right _ (by omega)
          omega
        · right
          have he : c + 1 + k' = c + (k' + 1) := by omega
          rw [he]; exact h
      rw [hih.2 idx hout, hwrite]
      rw [if_neg]
      rcases hidx with h | h
      · omega
      · intro hcon
        have : (c + 1) * numReceivers ≤ (c + (k' + 1)) * numReceivers :=
          Nat.mul_le_mul_right _ (by omega)
        omega

/-- C4: if the interrupt predicate becomes true while the run is `k`
steps in (`0 < k < numSteps`, polls before that returning false), the
capture run exits through the interrupt `break` after the in-flight
step completes — status `interrupted`, not `completed`, exactly `k`
steps executed — every response-buffer entry at index `≥ k*numReceivers`
(all steps `≥ k`) still holds its initial zero, and the entries of the
completed steps `j < k` hold the kernel's samples unchanged. -/
theorem C4_interrupt_partial_results (exec0 : ExecState)
    (numSteps numReceivers k : Nat)
    (sample : Nat → Nat → ℚ) (ip : Nat → Bool) (times : Nat → ℚ)
    (hc0 : exec0.current_step = 0) (hd0 : exec0.step_direction = 1)
    (hk0 : 0 < k) (hkn : k < numSteps)
    (hfalse : ∀ j, j < k - 1 → ip j = false) (htrue : ip (k - 1) = true) :
    (runCapture exec0 numSteps numReceivers sample ip times).2 = RunStatus.interrupted ∧
    (runCapture exec0 numSteps numReceivers sample ip times).2 ≠ RunStatus.completed ∧
    (runCapture exec0 numSteps numReceivers sample ip times).1.exec.current_step = (k : Int) ∧
    (∀ idx : Nat, k * numReceivers ≤ idx →
      (runCapture exec0 numSteps numReceivers sample ip times).1.responses idx = 0) ∧
    (∀ j r, j < k → r < numReceivers →
      (runCapture exec0 numSteps numReceivers sample ip times).1.responses
        (j * numReceivers + r) = sample j r) := by
  have hrun : runCapture exec0 numSteps numReceivers sample ip times
      = (stepsFrom numReceivers sample times k 0 ⟨exec0, fun _ => 0⟩,
         RunStatus.interrupted) := by
    unfold runCapture
    exact runCaptureAux_interrupt numReceivers sample ip times k numSteps 0
      ⟨exec0, fun _ => 0⟩ hk0 (by omega)
      (by intro j hj; simpa using hfalse j hj)
      (by simpa using htrue)
  have hresp := stepsFrom_responses numReceivers sample times k 0
      ⟨exec0, fun _ => 0⟩ 0 (by simpa using hc0) hd0
  have hexec := stepsFrom_exec numReceivers sample times k 0 ⟨exec0, fun _ => 0⟩
  rw [hrun]
  refine ⟨rfl, by simp, ?_, ?_, ?_⟩
  · rw [hexec.1]
    simp [hc0, hd0]
  · intro idx hidx
    have := hresp.2 idx (Or.inr (by simpa using hidx))
    simpa using this
  · intro j r hj hr
    have := hresp.1 j r hj hr
    simpa using this

/-- Witness for C4: a 10-step run over 2 receivers with constant sample
1, interrupted at the poll after the 3rd step: status interrupted, step
counter 3, entries of steps ≥ 3 still zero, entries of steps 0-2 equal
the sample. -/
theorem C4_interrupt_partial_results_witness :
    ((⟨0, 1, 0⟩ : ExecState).current_step = 0 ∧
     (⟨0, 1, 0⟩ : ExecState).step_direction = 1 ∧
     0 < 3 ∧ 3 < 10 ∧
     (∀ j, j < 3 - 1 → (decide (2 ≤ j) : Bool) = false) ∧
     (decide (2 ≤ 3 - 1) : Bool) = true) ∧
    ((runCapture ⟨0, 1, 0⟩ 10 2 (fun _ _ => 1) (fun j => decide (2 ≤ j))
        (fun _ => 0)).2 = RunStatus.interrupted ∧
     (runCapture ⟨0, 1, 0⟩ 10 2 (fun _ _ => 1) (fun j => decide (2 ≤ j))
        (fun _ => 0)).2 ≠ RunStatus.completed ∧
     (runCapture ⟨0, 1, 0⟩ 10 2 (fun _ _ => 1) (fun j => decide (2 ≤ j))
        (fun _ => 0)).1.exec.current_step = (3 : Int) ∧
     (∀ idx : Nat, 3 * 2 ≤ idx →
       (runCapture ⟨0, 1, 0⟩ 10 2 (fun _ _ => 1) (fun j => decide (2 ≤ j))
          (fun _ => 0)).1.responses idx = 0) ∧
     (∀ j r, j < 3 → r < 2 →
       (runCapture ⟨0, 1, 0⟩ 10 2 (fun _ _ => 1) (fun j => decide (2 ≤ j))
          (fun _ => 0)).1.responses (j * 2 + r) = 1)) :=
  ⟨⟨rfl, rfl, by omega, by omega,
    by intro j hj; simp; omega, by simp⟩,
   C4_interrupt_partial_results ⟨0, 1, 0⟩ 10 2 3 (fun _ _ => 1)
     (fun j => decide (2 ≤ j)) (fun _ => 0) rfl rfl (by omega) (by omega)
     (by intro j hj; simp; omega) (by simp)⟩

/-! ## Slice capture images (`App::saveBitmap`, lines 492-567)

The per-pixel arithmetic runs on C `float`s and calls the C library's
`log10`; it is modelled over `ℚ` with the logarithm as an abstract
parameter `log10v : ℚ → ℚ` (the claims under scrutiny are about the
shape of the transform, not about the numerics of `log10`).  The final
`(unsigned char)(x*255)` conversions are modelled as `⌊x * 255⌋`. -/

structure Colour where
  r : ℤ
  g : ℤ
  b : ℤ
  a : ℤ
deriving Repr, DecidableEq

def whiteColour : Colour := ⟨255, 255, 255, 255⟩

/-- One pixel of `App::saveBitmap` (lines 505-539): `c` is the field
value `data[i*dim_x+j]`, `c_pos` the position byte
`position_data[i*dim_x+j]` (`0 ≤ c_pos < 256`).  The boundary test is
`(c_pos>>7) == 0X01 && (c_pos&0X7F) != 0x06` (127 = 0X7F, 6 = 0x06);
`capture_db_` is the configured dynamic range, divided by 10 before
use (`float dB = this->capture_db_/10.f`). -/
def saveBitmapPixel (log10v : ℚ → ℚ) (capture_db : ℚ) (c : ℚ) (c_pos : Nat) : Colour :=
  if c_pos >>> 7 = 1 ∧ c_pos &&& 127 ≠ 6 then whiteColour
  else
    let dB := capture_db / 10
    let sign : ℚ := if c > 0 then 1 else -1
    let c1 := (log10v (c * c) + dB) / dB
    let c2 := if c1 > 0 then c1 else 0
    let gc := if sign ≥ 0 then c2 else 0
    let bc := if sign < 0 then c2 else 0
    ⟨0, ⌊gc * 255⌋, ⌊bc * 255⌋, 255⟩

/-- The file key built at lines 564-566:
`ss << "capture_"<<orientation<<"_"<<step<<"_"<<slice<<".tga";` -/
def captureFileName (orientation step slice : Nat) : String :=
  "capture_" ++ toString orientation ++ "_" ++ toString step ++ "_"
    ++ toString slice ++ ".tga"

/-- The claim's intensity formula `c = max(0, (log10(pressure²)+dB)/dB)`,
written from the spec's words, to be compared with the code's pixel. -/
def captureIntensity (log10v : ℚ → ℚ) (dB p : ℚ) : ℚ :=
  max 0 ((log10v (p * p) + dB) / dB)

theorem pos_clamp_eq_max (x : ℚ) : (if x > 0 then x else 0) = max 0 x := by
  rcases lt_or_le 0 x with h | h
  · rw [if_pos h, max_eq_right h.le]
  · rw [if_neg (not_lt.mpr h), max_eq_left h]

/-- C7: the capture image is keyed `capture_<orientation>_<step>_<slice>`;
a pixel is opaque white exactly when its position byte marks a boundary
cell (`bit 7 set`) of a non-excluded material (`low bits ≠ 6`); every
other pixel is opaque with red 0 and encodes the signed field value in
two channels: green carries `⌊max(0,(log10(p²)+dB)/dB)·255⌋` for
positive values (blue 0), blue carries it for negative values (green 0),
where `dB` is the configured dynamic-range divisor `capture_db_/10`. -/
theorem C7_capture_pixel_encoding (log10v : ℚ → ℚ) (capture_db p : ℚ) (c_pos : Nat) :
    (∀ o s sl : Nat, captureFileName o s sl =
      "capture_" ++ toString o ++ "_" ++ toString s ++ "_" ++ toString sl ++ ".tga") ∧
    (saveBitmapPixel log10v capture_db p c_pos = whiteColour ↔
      (c_pos >>> 7 = 1 ∧ c_pos &&& 127 ≠ 6)) ∧
    (¬(c_pos >>> 7 = 1 ∧ c_pos &&& 127 ≠ 6) →
      (saveBitmapPixel log10v capture_db p c_pos).r = 0 ∧
      (saveBitmapPixel log10v capture_db p c_pos).a = 255 ∧
      (0 < p →
        (saveBitmapPixel log10v capture_db p c_pos).g =
          ⌊captureIntensity log10v (capture_db / 10) p * 255⌋ ∧
        (saveBitmapPixel log10v capture_db p c_pos).b = 0) ∧
      (p < 0 →
        (saveBitmapPixel log10v capture_db p c_pos).b =
          ⌊captureIntensity log10v (capture_db / 10) p * 255⌋ ∧
        (saveBitmapPixel log10v capture_db p c_pos).g = 0)) := by
  refine ⟨fun o s sl => rfl, ?_, ?_⟩
  · by_cases hcond : (c_pos >>> 7 = 1 ∧ c_pos &&& 127 ≠ 6)
    · simp [saveBitmapPixel, hcond]
    · simp only [saveBitmapPixel, if_neg hcond]
      constructor
      · intro h
        have := congrArg Colour.r h
        simp [whiteColour] at this
      · intro h
        exact absurd h hcond
  · intro hcond
    simp only [saveBitmapPixel, if_neg hcond]
    refine ⟨by trivial, by trivial, ?_, ?_⟩
    · intro hp
      rw [if_pos hp]
      constructor
      · simp only [ge_iff_le, zero_le_one, if_pos, pos_clamp_eq_max, captureIntensity]
      · norm_num
    · intro hp
      rw [if_neg (not_lt.mpr hp.le)]
      constructor
      · norm_num [pos_clamp_eq_max, captureIntensity]
      · norm_num

/-- Witness for C7: non-boundary byte 3, field value 4, configured
dynamic range 100, logarithm instantiated with the identity: red 0,
green `⌊((16+10)/10)·255⌋`, blue 0; and boundary byte 129 gives white. -/
theorem C7_capture_pixel_encoding_witness :
    (¬((3 : Nat) >>> 7 = 1 ∧ (3 : Nat) &&& 127 ≠ 6) ∧ (0 : ℚ) < 4) ∧
    ((saveBitmapPixel (fun x => x) 100 4 3).g =
       ⌊captureIntensity (fun x => x) (100 / 10) 4 * 255⌋ ∧
     (saveBitmapPixel (fun x => x) 100 4 3).b = 0) ∧
    (saveBitmapPixel (fun x => x) 100 4 129 = whiteColour ↔
      ((129 : Nat) >>> 7 = 1 ∧ (129 : Nat) &&& 127 ≠ 6)) :=
  ⟨⟨by decide, by norm_num⟩,
   ((C7_capture_pixel_encoding (fun x => x) 100 4 3).2.2 (by decide)).2.2.1 (by norm_num),
   (C7_capture_pixel_encoding (fun x => x) 100 4 129).2.1⟩
